import Mathlib

/-!
# Verification of the data-analysis-agent core

Shallow embedding of the repository's core modules and proofs of the
frozen claims about them:

* `src/src/history_compressor.py` — `HistoryCompressor` (the spec's
  `HistoryLedger`): bounded recent-step buffer with FIFO archival of the
  oldest step into a flat summary string.
* `src/src/schema_compressor.py` — `SchemaCompressor`: per-column
  statistical digests of a table.
* `src/src/eda_agent.py` — `EDAAgent`: the four analyses
  (missing values, distributions, correlations, outliers) and the
  rule-based suggestion engine.

Modelling conventions:

* Python/pandas numbers are modelled exactly over `ℚ`; a float `NaN`
  arising from a 0/0 division is modelled as `Option.none` where the
  value is stored, and comparisons against `NaN` (which are `False` in
  IEEE semantics) are modelled as the `false` branch.
* Python's fixed-decimal renderings of float quantities
  (`f"{x:.1%}"`, `f"{x:.2f}"`, `f"{x}"`) go through IEEE-754 doubles;
  they are abstracted as an arbitrary formatter record `NumFmt` that
  receives the exact source data of the rendered value.  All theorems
  quantify over the formatter, so nothing about the claims depends on it.
* Quantities whose exact value is irrational (pandas `std`, `skew`,
  Pearson `r`) are never stored; the comparisons the code performs on
  them (`|skew| > 1`, `|r| ≥ threshold`, `|z| > 3`) are embedded by the
  equivalent exact rational inequalities, and bridge lemmas over `ℝ`
  justify the equivalences where a claim depends on them.
-/

/-! ## History ledger (`src/src/history_compressor.py`) -/

/-- An analysis step, as in `AnalysisStep.__init__`
(`history_compressor.py` lines 14-39).  The wall-clock `timestamp`
field is not modelled (no claim mentions it). -/
structure AnalysisStep where
  stepNumber : ℕ
  action : String
  description : String
  insights : List String
  code : Option String
deriving DecidableEq, Repr

/-- The argument bundle of one `HistoryCompressor.add_step` call. -/
structure StepInput where
  action : String
  description : String
  insights : List String
  code : Option String
deriving DecidableEq, Repr

/-- State of a `HistoryCompressor` (`history_compressor.py` lines 62-71):
`max_steps_to_keep` (the capacity), `history` (the recent steps) and
`archived_summary`. -/
structure Ledger where
  maxStepsToKeep : ℕ
  history : List AnalysisStep
  archived : List String
deriving DecidableEq, Repr

/-- A freshly constructed `HistoryCompressor(max_steps_to_keep=c)`. -/
def initLedger (c : ℕ) : Ledger := ⟨c, [], []⟩

/-- Flat summary string of an archived step, as built in
`HistoryCompressor._archive_old_steps` (lines 108-111): the
`Insights:` part is appended only when the step has insights. -/
def summarizeStep (st : AnalysisStep) : String :=
  let base := "Step " ++ toString st.stepNumber ++ " (" ++ st.action ++ "): "
    ++ st.description ++ ". "
  match st.insights with
  | [] => base
  | l => base ++ "Insights: " ++ String.intercalate "; " l

/-- `HistoryCompressor._archive_old_steps` (lines 102-113): pop the
oldest recent step and append its summary to `archived_summary`.
The `[]` branch is unreachable from `add_step` (which only calls this
when the history is longer than the capacity, hence non-empty). -/
def archiveOldSteps (s : Ledger) : Ledger :=
  match s.history with
  | [] => s
  | old :: rest => { s with history := rest,
                            archived := s.archived ++ [summarizeStep old] }

/-- `HistoryCompressor.add_step` (lines 73-100), returning the created
step together with the new state.  Note the code computes
`step_number = len(self.history) + 1`, ignoring the archived count. -/
def addStepFull (s : Ledger) (inp : StepInput) : AnalysisStep × Ledger :=
  let step : AnalysisStep :=
    ⟨s.history.length + 1, inp.action, inp.description, inp.insights, inp.code⟩
  let s2 : Ledger := { s with history := s.history ++ [step] }
  if s.maxStepsToKeep < s2.history.length then (step, archiveOldSteps s2)
  else (step, s2)

/-- `add_step` as a state transformer (callers in `eda_agent.py` ignore
the returned step). -/
def addStep (s : Ledger) (inp : StepInput) : Ledger := (addStepFull s inp).2

/-- Run a sequence of `add_step` calls from a given state. -/
def runFrom (s : Ledger) (l : List StepInput) : Ledger := l.foldl addStep s

/-- Run a sequence of `add_step` calls on a fresh ledger of capacity `c`. -/
def runSteps (c : ℕ) (l : List StepInput) : Ledger := runFrom (initLedger c) l

/-- The step that the code creates for the call at (0-based) call index
`idx` on a fresh ledger of capacity `c`: at that moment the recent
history has `min idx c` entries, so the code assigns
`step_number = min idx c + 1`. -/
def mkStepAt (c idx : ℕ) (inp : StepInput) : AnalysisStep :=
  ⟨min idx c + 1, inp.action, inp.description, inp.insights, inp.code⟩

/-- All steps created (in creation order) by a call sequence starting at
call index `idx` on a fresh ledger of capacity `c`. -/
def createdFrom (c idx : ℕ) : List StepInput → List AnalysisStep
  | [] => []
  | inp :: rest => mkStepAt c idx inp :: createdFrom c (idx + 1) rest

/-- All steps created by a call sequence on a fresh ledger of capacity `c`. -/
def createdSteps (c : ℕ) (l : List StepInput) : List AnalysisStep :=
  createdFrom c 0 l

/-- `HistoryCompressor._extract_key_insights` (lines 130-135): all
insights of the recent steps, pooled in step order. -/
def extractKeyInsights (s : Ledger) : List String :=
  (s.history.map (·.insights)).flatten

/-- The last at-most-`n` elements of a list (Python's `l[-n:]` for `n > 0`). -/
def lastN (n : ℕ) (l : List α) : List α := l.drop (l.length - n)

/-- Rendering of one recent step inside
`HistoryCompressor.get_context_for_next_step` (lines 191-195):
`"{action}: {description}"`, plus `" (Found: {first insight})"` when the
step has insights. -/
def stepBrief (st : AnalysisStep) : String :=
  let base := st.action ++ ": " ++ st.description
  match st.insights with
  | [] => base
  | i :: _ => base ++ " (Found: " ++ i ++ ")"

/-- `HistoryCompressor.get_context_for_next_step` (lines 171-205). -/
def getContextForNextStep (s : Ledger) : String :=
  let p1 : List String :=
    if s.archived.isEmpty then [] else
      ["Previous analysis (" ++ toString s.archived.length
        ++ " steps completed): " ++ String.intercalate " → " (lastN 3 s.archived)]
  let p2 : List String :=
    if s.history.isEmpty then [] else
      ["Recent: " ++ String.intercalate " → " ((lastN 3 s.history).map stepBrief)]
  let ki := extractKeyInsights s
  let p3 : List String :=
    if ki.isEmpty then [] else
      ["Key findings: " ++ String.intercalate "; " (lastN 3 ki)]
  String.intercalate " | " (p1 ++ p2 ++ p3)

/-- `HistoryCompressor.clear_history` (lines 207-210): clears both the
recent steps and the archived summaries. -/
def clearHistory (s : Ledger) : Ledger := { s with history := [], archived := [] }

/-- Total number of steps ever recorded in a ledger
(`archived_count + len(recent_steps)`, the code's `total_steps` in
`get_compressed_history`). -/
def ledgerTotal (s : Ledger) : ℕ := s.archived.length + s.history.length

/-- Context string assembled from an archived count, at most 3 archived
summaries, at most 3 recent steps and at most 3 pooled insights.  This
follows the spec's description of `context_for_next_step`, with the
archived count as an extra explicit input (the correction of claim C6). -/
def buildContext (archCount : ℕ) (arch3 : List String)
    (steps3 : List AnalysisStep) (ins3 : List String) : String :=
  let p1 : List String :=
    if arch3.isEmpty then [] else
      ["Previous analysis (" ++ toString archCount ++ " steps completed): "
        ++ String.intercalate " → " arch3]
  let p2 : List String :=
    if steps3.isEmpty then [] else
      ["Recent: " ++ String.intercalate " → " (steps3.map stepBrief)]
  let p3 : List String :=
    if ins3.isEmpty then [] else
      ["Key findings: " ++ String.intercalate "; " ins3]
  String.intercalate " | " (p1 ++ p2 ++ p3)

/-- A generic step input used in concrete scenarios. -/
def demoInput : StepInput := ⟨"analysis", "step", ["insight"], none⟩

/-- Three `add_step` calls on a capacity-1 ledger (concrete scenario for
claim C2). -/
def capOneRun1 : AnalysisStep × Ledger := addStepFull (initLedger 1) demoInput

/-- Second call of the capacity-1 scenario. -/
def capOneRun2 : AnalysisStep × Ledger := addStepFull capOneRun1.2 demoInput

/-- Third call of the capacity-1 scenario. -/
def capOneRun3 : AnalysisStep × Ledger := addStepFull capOneRun2.2 demoInput

/-- Concrete input triple for witness scenarios. -/
def demoInputs3 : List StepInput := [demoInput, demoInput, demoInput]

/-- A reachable ledger with one archived summary (two calls, capacity 1). -/
def demoLedger : Ledger := runSteps 1 [demoInput, demoInput]

/-- Reachable state: five identical calls on a capacity-1 ledger. -/
def ctxA : Ledger := runSteps 1 (List.replicate 5 demoInput)

/-- Reachable state: six identical calls on a capacity-1 ledger. -/
def ctxB : Ledger := runSteps 1 (List.replicate 6 demoInput)

/-! ## Table model and schema compressor (`src/src/schema_compressor.py`) -/

/-- The values of one table column.  pandas decides the branch in
`SchemaCompressor._compress_column` with `pd.api.types.is_numeric_dtype`;
here the column kind is part of the column value.  A `none` entry is a
null (`NaN`/`None`) cell. -/
inductive ColValues where
  | numeric (vals : List (Option ℚ))
  | categorical (vals : List (Option String))
deriving DecidableEq, Repr

/-- A table: a row count and named columns in source order (the pandas
`DataFrame` the agent is given). -/
structure Table where
  nRows : ℕ
  cols : List (String × ColValues)
deriving DecidableEq, Repr

/-- Length of a column (`len(series)`). -/
def colLen : ColValues → ℕ
  | .numeric v => v.length
  | .categorical v => v.length

/-- Number of null entries of a column (`series.isna().sum()`). -/
def colMissing : ColValues → ℕ
  | .numeric v => (v.filter Option.isNone).length
  | .categorical v => (v.filter Option.isNone).length

/-- Non-null values of a numeric column, in order (`series.dropna()`). -/
def somesQ (v : List (Option ℚ)) : List ℚ := v.filterMap id

/-- Non-null values of a categorical column, in order. -/
def somesS (v : List (Option String)) : List String := v.filterMap id

/-- A well-formed table, as a pandas `DataFrame` always is: distinct
column names, and every column aligned to the row count. -/
def WellFormed (t : Table) : Prop :=
  (t.cols.map Prod.fst).Nodup ∧ ∀ p ∈ t.cols, colLen p.2 = t.nRows

instance (t : Table) : Decidable (WellFormed t) := by
  unfold WellFormed; infer_instance

/-- Number of distinct non-null values (`series.nunique()`). -/
def nuniqueCol : ColValues → ℕ
  | .numeric v => (somesQ v).dedup.length
  | .categorical v => (somesS v).dedup.length

/-- Sorted copy of a list of rationals (pandas sorts the non-null
values before interpolating a quantile). -/
def sortQ (l : List ℚ) : List ℚ := l.insertionSort (· ≤ ·)

/-- pandas `Series.quantile(q)` with the default linear interpolation:
on the sorted non-null values `v` of length `m`, with `h = q·(m−1)`,
return `v[⌊h⌋] + (h − ⌊h⌋)·(v[⌊h⌋+1] − v[⌊h⌋])`.  Total: on an empty
list it returns `0` (callers only use it on non-empty data). -/
def quantileLinear (l : List ℚ) (q : ℚ) : ℚ :=
  let s := sortQ l
  let m := s.length
  let h : ℚ := q * ((m : ℚ) - 1)
  let i : ℕ := (⌊h⌋).toNat
  let x0 := s.getD i 0
  let x1 := s.getD (i + 1) x0
  x0 + (h - (i : ℚ)) * (x1 - x0)

/-- Minimum of a list of rationals (`series.min()`); `0` on `[]`. -/
def listMinQ : List ℚ → ℚ
  | [] => 0
  | x :: xs => xs.foldl min x

/-- Maximum of a list of rationals (`series.max()`); `0` on `[]`. -/
def listMaxQ : List ℚ → ℚ
  | [] => 0
  | x :: xs => xs.foldl max x

/-- Arithmetic mean (`series.mean()`); division by zero yields `0` on
`[]` (callers guard against the empty case). -/
def meanQ (l : List ℚ) : ℚ := l.sum / (l.length : ℚ)

/-- Sum of squared deviations from the mean, the building block of
pandas `std`, `skew` and of z-scores. -/
def ssqQ (l : List ℚ) : ℚ := (l.map (fun x => (x - meanQ l) ^ 2)).sum

/-- The numeric per-column statistics stored by
`SchemaCompressor._get_numeric_stats` (lines 90-102).  The `std` entry
(sample standard deviation, an irrational square root) is not modelled:
no claim and no downstream branch reads it (`suggest_next_steps` uses
only `q25`, `q75`, `min`, `max`, `mean`, `median`). -/
structure NumStats where
  mean : ℚ
  sMin : ℚ
  sMax : ℚ
  median : ℚ
  q25 : ℚ
  q75 : ℚ
deriving DecidableEq, Repr

/-- Stats of a numeric column: `none` when there are zero non-null
values (`_get_numeric_stats` lines 84-88). -/
def numericStats (nn : List ℚ) : Option NumStats :=
  if nn.isEmpty then none
  else some { mean := meanQ nn, sMin := listMinQ nn, sMax := listMaxQ nn,
              median := quantileLinear nn (1/2), q25 := quantileLinear nn (1/4),
              q75 := quantileLinear nn (3/4) }

/-- Cardinality bucket of a categorical column
(`_get_categorical_stats` line 112). -/
def cardinalityBucket (u : ℕ) : String :=
  if 50 < u then "high" else if 10 < u then "medium" else "low"

/-- The type-specific part of a column digest.  The categorical
`top_values`/`sample_values` lists are not modelled: no claim reads
them. -/
inductive DigestKind where
  | numeric (stats : Option NumStats) (uniqueCount : ℕ)
  | categorical (uniqueCount : ℕ) (cardinality : String)
deriving DecidableEq, Repr

/-- Per-column digest (`SchemaCompressor._compress_column` lines 56-78).
`missingRatio` is `series.isna().sum() / len(series)`; on a zero-length
column this is numpy's `0/0 = NaN`, modelled as `none`. -/
structure ColumnDigest where
  missingCount : ℕ
  missingRatio : Option ℚ
  kind : DigestKind
deriving DecidableEq, Repr

/-- `SchemaCompressor._compress_column`. -/
def compressColumn (v : ColValues) : ColumnDigest :=
  { missingCount := colMissing v,
    missingRatio :=
      if colLen v = 0 then none
      else some ((colMissing v : ℚ) / (colLen v : ℚ)),
    kind :=
      match v with
      | .numeric vals => .numeric (numericStats (somesQ vals)) (nuniqueCol v)
      | .categorical _ => .categorical (nuniqueCol v)
          (cardinalityBucket (nuniqueCol v)) }

/-- Whole-table digest (`SchemaCompressor.compress` lines 31-54).  The
`memory_usage_mb` field is not modelled (no claim reads it); the column
map is an insertion-ordered association list, as a Python dict is. -/
structure SchemaDigest where
  rows : ℕ
  columns : List (String × ColumnDigest)
deriving DecidableEq, Repr

/-- `SchemaCompressor.compress`. -/
def compress (t : Table) : SchemaDigest :=
  { rows := t.nRows,
    columns := t.cols.map (fun p => (p.1, compressColumn p.2)) }

/-- The stats stored in a digest kind (`col_info["stats"]`, `None` for
categorical columns and for numeric columns with no non-null values). -/
def kindStats : DigestKind → Option NumStats
  | .numeric st _ => st
  | .categorical _ _ => none

/-- Whether a digest records a numeric column (`col_info["type"] == "numeric"`). -/
def isNumericKind : DigestKind → Bool
  | .numeric _ _ => true
  | .categorical _ _ => false

/-! ## EDA agent (`src/src/eda_agent.py`) -/

/-- Abstract renderings of float quantities embedded in insight and
suggestion strings.  Each formatter receives the exact source data of
the number it renders; every theorem quantifies over the record, so no
result depends on IEEE-754 formatting details.

* `pct` — `f"{x:.1%}"` of an exact ratio;
* `skewTxt` — `f"{skew:.2f}"` where `skew` is the pandas sample skewness
  of the given non-null values;
* `corrTxt` — `f"{r:.2f}"` where `r` is the Pearson correlation of the
  two given columns (pairwise non-null);
* `plain` — `f"{x}"` for a float such as the correlation threshold. -/
structure NumFmt where
  pct : ℚ → String
  skewTxt : List ℚ → String
  corrTxt : List (Option ℚ) → List (Option ℚ) → String
  plain : ℚ → String

/-- A concrete trivial formatter for closed scenarios. -/
def trivialFmt : NumFmt := ⟨fun _ => "", fun _ => "", fun _ _ => "", fun _ => ""⟩

/-- The mutable analysis state of an `EDAAgent`: its history compressor
and its `current_step` counter (`eda_agent.py` lines 40-46). -/
structure AgentState where
  ledger : Ledger
  currentStep : ℕ
deriving DecidableEq, Repr

/-- A freshly initialized agent state (`HistoryCompressor()` has default
capacity 10, `current_step = 0`). -/
def initAgent : AgentState := ⟨initLedger 10, 0⟩

/-- Column lookup by name (`self.df[col]`, first match). -/
def lookupCol (t : Table) (name : String) : Option ColValues :=
  (t.cols.find? (fun p => p.1 == name)).map Prod.snd

/-- Names of the numeric columns of a digest, in digest (= table) order
(the list comprehension over `self.compressed_schema["columns"]` used by
the analyses and the suggestion engine). -/
def numericColNames (schema : SchemaDigest) : List String :=
  (schema.columns.filter (fun p => isNumericKind p.2.kind)).map Prod.fst

/-- The numeric columns of a table with their data, in table order.
For a well-formed table this is exactly what `analyze_correlations`
selects via the schema's numeric column names. -/
def numericCols (t : Table) : List (String × List (Option ℚ)) :=
  t.cols.filterMap (fun p =>
    match p.2 with
    | .numeric v => some (p.1, v)
    | .categorical _ => none)

/-- The three fixed suggestions returned when `current_step == 0`
(`suggest_next_steps` lines 76-82). -/
def suggestFixed : List String :=
  ["Examine basic statistics and data distribution",
   "Check for missing values and data quality issues",
   "Identify column types and potential features"]

/-- Per-column suggestions of `suggest_next_steps` (lines 85-117), in
code order: missing-ratio rule, then the two numeric rules (outlier
bounds, mean/median skew proxy), then the categorical high-cardinality
rule.  A `NaN` missing ratio (`none`) compares `False`, as in IEEE. -/
def colSuggestions (fmt : NumFmt) (p : String × ColumnDigest) : List String :=
  let s1 : List String :=
    match p.2.missingRatio with
    | some q =>
        if (1 : ℚ)/10 < q then
          ["Investigate missing values in \x27" ++ p.1 ++ "\x27 ("
            ++ fmt.pct q ++ " missing)"]
        else []
    | none => []
  let s2 : List String :=
    match p.2.kind with
    | .numeric (some st) _ =>
        (let iqr := st.q75 - st.q25
         if 0 < iqr ∧ (st.sMin < st.q25 - 3/2 * iqr ∨ st.q75 + 3/2 * iqr < st.sMax)
         then ["Analyze potential outliers in \x27" ++ p.1 ++ "\x27"]
         else [])
        ++ (if st.median * (3/2) < st.mean ∨ st.mean < st.median * (67/100)
            then ["Examine distribution skewness in \x27" ++ p.1 ++ "\x27"]
            else [])
    | _ => []
  let s3 : List String :=
    match p.2.kind with
    | .categorical u card =>
        if card = "high" then
          ["Analyze high cardinality in \x27" ++ p.1 ++ "\x27 ("
            ++ toString u ++ " unique values)"]
        else []
    | _ => []
  s1 ++ s2 ++ s3

/-- The full generated suggestion list before the final `[:5]`
truncation (lines 85-125): per-column suggestions in table order, then
the correlation suggestion when at least two numeric columns exist. -/
def genSuggestions (fmt : NumFmt) (schema : SchemaDigest) : List String :=
  (schema.columns.map (colSuggestions fmt)).flatten
    ++ (if 2 ≤ (schema.columns.filter (fun p => isNumericKind p.2.kind)).length
        then ["Explore correlations between numeric features"]
        else [])

/-- `EDAAgent.suggest_next_steps` (lines 66-128). -/
def suggestNextSteps (fmt : NumFmt) (schema : SchemaDigest)
    (currentStep : ℕ) : List String :=
  if currentStep = 0 then suggestFixed
  else (genSuggestions fmt schema).take 5

/-- `EDAAgent.analyze_missing_values` (lines 130-172), as a transformer
of the agent state (the returned result dict is not modelled; its
`insights` entry is the list recorded in the ledger).  The per-column
ratio uses `len(self.df)` as denominator; a column with missing entries
is recorded together with that ratio, and insights count the affected
columns and those with ratio above 0.3. -/
def analyzeMissingValues (df : Table) (s : AgentState) : AgentState :=
  let entries := df.cols.filterMap (fun p =>
    let mc := colMissing p.2
    if 0 < mc then some ((mc : ℚ) / (df.nRows : ℚ)) else none)
  let insights :=
    if entries.isEmpty then ["No missing values detected in dataset"]
    else
      ["Found " ++ toString entries.length ++ " columns with missing values"]
      ++ (let hm := (entries.filter (fun r => decide ((3 : ℚ)/10 < r))).length
          if 0 < hm then [toString hm ++ " columns have >30% missing data"]
          else [])
  { ledger := addStep s.ledger
      ⟨"missing_value_analysis",
       "Analyzed missing values across " ++ toString df.cols.length ++ " columns",
       insights, none⟩,
    currentStep := s.currentStep + 1 }

/-- The distribution insight for one numeric column
(`analyze_distributions` lines 201-216).  pandas `Series.skew` is `NaN`
for fewer than 3 points (so `abs(skew) > 1` is `False`), `0` when the
variance is zero, and otherwise the adjusted Fisher-Pearson statistic
`G1 = √(m(m−1))/(m−2) · (m3/m2^1.5)` with `mk = Sk/m`, `Sk = Σ(x−x̄)^k`.
For `m ≥ 3` and `S2 ≠ 0`, `|G1| > 1  ↔  S2³·(m−2)² < S3²·m²·(m−1)`, and
`G1 > 0 ↔ 0 < S3`, which is how the comparison is embedded exactly. -/
def skewInsight (fmt : NumFmt) (c : String) (nn : List ℚ) : List String :=
  let m := nn.length
  let s2 := ssqQ nn
  let s3 := (nn.map (fun x => (x - meanQ nn) ^ 3)).sum
  if 3 ≤ m ∧ s2 ≠ 0 ∧ s2 ^ 3 * ((m : ℚ) - 2) ^ 2 < s3 ^ 2 * (m : ℚ) ^ 2 * ((m : ℚ) - 1)
  then ["\x27" ++ c ++ "\x27 is "
          ++ (if 0 < s3 then "right-skewed" else "left-skewed")
          ++ " (skew=" ++ fmt.skewTxt nn ++ ")"]
  else []

/-- `EDAAgent.analyze_distributions` (lines 174-230) at its default
`columns=None` argument (all schema-numeric columns), as a state
transformer.  Columns absent from the table or with no non-null values
are skipped; if no column is flagged, the single placeholder insight is
recorded. -/
def analyzeDistributions (fmt : NumFmt) (df : Table) (s : AgentState) : AgentState :=
  let columns := numericColNames (compress df)
  let flagged := (columns.map (fun c =>
    match lookupCol df c with
    | some (.numeric vals) =>
        let nn := somesQ vals
        if nn.isEmpty then [] else skewInsight fmt c nn
    | _ => [])).flatten
  let ins := if flagged.isEmpty then ["All distributions appear relatively normal"]
             else flagged
  { ledger := addStep s.ledger
      ⟨"distribution_analysis",
       "Analyzed distributions for " ++ toString columns.length ++ " numeric columns",
       ins, none⟩,
    currentStep := s.currentStep + 1 }

/-- Aligned pairwise non-null values of two columns, as pandas
`DataFrame.corr` uses for each Pearson entry. -/
def pairData (xs ys : List (Option ℚ)) : List (ℚ × ℚ) :=
  (xs.zip ys).filterMap (fun p =>
    match p with
    | (some a, some b) => some (a, b)
    | _ => none)

/-- Whether `abs(corr_value) >= threshold` for the Pearson correlation
`r = Sxy/√(Sxx·Syy)` of two columns (`analyze_correlations` line 262).
A `NaN` correlation (zero variance on either side, which subsumes fewer
than two pairs) compares `False`; otherwise for `t > 0` the comparison
is equivalent to `t²·Sxx·Syy ≤ Sxy²`, and for `t ≤ 0` it always holds.
`corrSums` computes the deviation sums `(Sxx, Syy, Sxy)` over the
pairwise non-null values. -/
def corrSums (xs ys : List (Option ℚ)) : ℚ × ℚ × ℚ :=
  let ps : List (ℚ × ℚ) := pairData xs ys
  let mx : ℚ := meanQ (ps.map Prod.fst)
  let my : ℚ := meanQ (ps.map Prod.snd)
  ((ps.map (fun p => (p.1 - mx) ^ 2)).sum,
   (ps.map (fun p => (p.2 - my) ^ 2)).sum,
   (ps.map (fun p => (p.1 - mx) * (p.2 - my))).sum)

/-- The strong-correlation test itself, in terms of `corrSums`. -/
def corrStrong (t : ℚ) (xs ys : List (Option ℚ)) : Bool :=
  decide (0 < (corrSums xs ys).1 ∧ 0 < (corrSums xs ys).2.1
    ∧ (t ≤ 0 ∨ t ^ 2 * ((corrSums xs ys).1 * (corrSums xs ys).2.1)
                  ≤ (corrSums xs ys).2.2 ^ 2))

/-- Upper-triangle pairs in the code's double-loop order
(`for i ...: for j in range(i+1, ...)`). -/
def upperPairs : List α → List (α × α)
  | [] => []
  | x :: xs => xs.map (fun y => (x, y)) ++ upperPairs xs

/-- `EDAAgent.analyze_correlations` (lines 232-289) as a state
transformer.  With fewer than two numeric columns the method returns
early: no `add_step`, no `current_step` increment — the state is
unchanged. -/
def analyzeCorrelations (fmt : NumFmt) (t : ℚ) (df : Table)
    (s : AgentState) : AgentState :=
  let numeric := numericCols df
  if numeric.length < 2 then s
  else
    let flagged := (upperPairs numeric).filterMap (fun q =>
      if corrStrong t q.1.2 q.2.2 then
        some ("Strong correlation (" ++ fmt.corrTxt q.1.2 q.2.2 ++ ") between \x27"
          ++ q.1.1 ++ "\x27 and \x27" ++ q.2.1 ++ "\x27")
      else none)
    let ins := if flagged.isEmpty
               then ["No strong correlations found (threshold=" ++ fmt.plain t ++ ")"]
               else flagged
    { ledger := addStep s.ledger
        ⟨"correlation_analysis",
         "Analyzed correlations among " ++ toString numeric.length ++ " numeric features",
         ins, none⟩,
      currentStep := s.currentStep + 1 }

/-- IQR outlier mask (`detect_outliers` lines 319-325): flag values
strictly outside `[Q1 − 1.5·IQR, Q3 + 1.5·IQR]`. -/
def iqrMask (nn : List ℚ) : List Bool :=
  let q1 := quantileLinear nn (1/4)
  let q3 := quantileLinear nn (3/4)
  let iqr := q3 - q1
  let lb := q1 - 3/2 * iqr
  let ub := q3 + 3/2 * iqr
  nn.map (fun x => decide (x < lb ∨ ub < x))

/-- Z-score outlier mask (`detect_outliers` lines 326-328):
`|(x − mean)/series.std()| > 3` where pandas `std` is the ddof=1 sample
standard deviation `√(SS/(m−1))`.  The comparison is embedded as the
exact equivalent `9·SS < (x−mean)²·(m−1)`; when `std` is `NaN` (m = 1)
or `0` (SS = 0) the float comparison is `False`, and so is the embedded
one. -/
def zscoreMask (nn : List ℚ) : List Bool :=
  let m := nn.length
  let mu := meanQ nn
  let ss := ssqQ nn
  nn.map (fun x => decide (9 * ss < (x - mu) ^ 2 * ((m : ℚ) - 1)))

/-- Method dispatch of `detect_outliers` (line 319): only the exact
string `"iqr"` selects the IQR branch; anything else falls to the
z-score branch. -/
def outlierMask (method : String) (nn : List ℚ) : List Bool :=
  if method = "iqr" then iqrMask nn else zscoreMask nn

/-- The per-column results of `detect_outliers` (lines 302-338) at its
default `columns=None`: for each schema-numeric column present with
non-null values and a positive outlier count, its name, count and
ratio, together with the insight strings in the same order. -/
def detectOutliersCore (fmt : NumFmt) (df : Table) (method : String) :
    List (String × ℕ × ℚ) × List String :=
  let columns := numericColNames (compress df)
  let outs := columns.filterMap (fun c =>
    match lookupCol df c with
    | some (.numeric vals) =>
        let nn := somesQ vals
        if nn.isEmpty then none
        else
          let cnt := (outlierMask method nn).count true
          if 0 < cnt then some (c, cnt, (cnt : ℚ) / (nn.length : ℚ)) else none
    | _ => none)
  let insights := outs.map (fun o =>
    "\x27" ++ o.1 ++ "\x27 has " ++ toString o.2.1 ++ " outliers ("
      ++ fmt.pct o.2.2 ++ ")")
  (outs, insights)

/-- `EDAAgent.detect_outliers` as a state transformer: records one step
with the collected insights (or the placeholder) and increments
`current_step`. -/
def detectOutliers (fmt : NumFmt) (method : String) (df : Table)
    (s : AgentState) : AgentState :=
  let core := detectOutliersCore fmt df method
  let ins := if core.2.isEmpty then ["No significant outliers detected"] else core.2
  { ledger := addStep s.ledger
      ⟨"outlier_detection", "Detected outliers using " ++ method ++ " method",
       ins, none⟩,
    currentStep := s.currentStep + 1 }

/-! ## Spec-side predicates and concrete scenarios -/

/-- Z-score rule as claim C4 states it, over `ℝ`: flag `|z| > 3` with
`z` computed from the mean and the population standard deviation
`√(SS/m)` of the non-null values. -/
def specZscorePop (nn : List ℚ) (x : ℚ) : Prop :=
  3 < |(x : ℝ) - (meanQ nn : ℝ)| / Real.sqrt ((ssqQ nn : ℝ) / (nn.length : ℝ))

/-- Z-score rule as the code implements it, over `ℝ`: flag `|z| > 3`
with `z` computed from the mean and the ddof=1 sample standard deviation
`√(SS/(m−1))` (pandas `Series.std()`). -/
def specZscoreSample (nn : List ℚ) (x : ℚ) : Prop :=
  3 < |(x : ℝ) - (meanQ nn : ℝ)|
        / Real.sqrt ((ssqQ nn : ℝ) / ((nn.length : ℝ) - 1))

/-- Column on which the population and sample z-score rules disagree:
the mean is 0, `SS = 102`, `m = 12`, so the value 9 has
`z_pop² = 81·12/102 > 9` but `z_sample² = 81·11/102 < 9`. -/
def cexData : List ℚ := [9, -4, -1, -1, -1, -1, -1, 0, 0, 0, 0, 0]

/-- The spec's own IQR example column `[1,2,3,4,5,100]`. -/
def cexIqr : List ℚ := [1, 2, 3, 4, 5, 100]

/-- A table with a single numeric column (correlation early-return
scenario for claim C3). -/
def df1 : Table := ⟨3, [("x", ColValues.numeric [some 1, some 2, some 3])]⟩

/-- A well-formed table with two numeric columns. -/
def df2 : Table :=
  ⟨3, [("x", ColValues.numeric [some 1, some 2, some 3]),
       ("y", ColValues.numeric [some 2, some 4, some 6])]⟩

/-- A table with an all-null numeric column and a categorical column. -/
def df7 : Table :=
  ⟨2, [("a", ColValues.numeric [none, none]),
       ("b", ColValues.categorical [some "u", none])]⟩

/-- A zero-row, zero-column table (`pd.DataFrame()`). -/
def df0 : Table := ⟨0, []⟩

/-- A well-formed zero-row table that still has a column
(`pd.DataFrame(columns=["a"])`). -/
def df8 : Table := ⟨0, [("a", ColValues.numeric [])]⟩

/-! ## Ledger lemmas -/

/-- Archival does not change the capacity. -/
theorem archiveOldSteps_maxSteps (s : Ledger) :
    (archiveOldSteps s).maxStepsToKeep = s.maxStepsToKeep := by
  rcases s with ⟨m, h, a⟩
  cases h <;> rfl

/-- `add_step` does not change the capacity. -/
theorem addStep_maxSteps (s : Ledger) (inp : StepInput) :
    (addStep s inp).maxStepsToKeep = s.maxStepsToKeep := by
  unfold addStep addStepFull
  dsimp only
  split
  · rw [archiveOldSteps_maxSteps]
  · rfl

/-- Each `add_step` call increases the total step count by exactly one
(archival moves a step from `history` to `archived_summary`). -/
theorem ledgerTotal_addStep (s : Ledger) (inp : StepInput) :
    ledgerTotal (addStep s inp) = ledgerTotal s + 1 := by
  rcases s with ⟨m, h, a⟩
  unfold addStep addStepFull ledgerTotal
  dsimp only
  split
  · cases h with
    | nil => simp [archiveOldSteps]
    | cons hd tl =>
      simp [archiveOldSteps]
      omega
  · simp
    omega

/-- Each `add_step` call only appends to `archived_summary`. -/
theorem addStep_archived (s : Ledger) (inp : StepInput) :
    ∃ tl, (addStep s inp).archived = s.archived ++ tl := by
  rcases s with ⟨m, h, a⟩
  unfold addStep addStepFull
  dsimp only
  split
  · cases h with
    | nil => exact ⟨_, rfl⟩
    | cons hd tl => exact ⟨_, rfl⟩
  · exact ⟨[], by simp⟩

/-- A sequence of `add_step` calls only appends to `archived_summary`. -/
theorem runFrom_archived_extends (s : Ledger) (l : List StepInput) :
    ∃ tl, (runFrom s l).archived = s.archived ++ tl := by
  induction l generalizing s with
  | nil => exact ⟨[], by simp [runFrom]⟩
  | cons i rest ih =>
    obtain ⟨t1, h1⟩ := addStep_archived s i
    obtain ⟨t2, h2⟩ := ih (addStep s i)
    refine ⟨t1 ++ t2, ?_⟩
    simp only [runFrom, List.foldl_cons] at h2 ⊢
    rw [h2, h1, List.append_assoc]

/-- `createdFrom` produces one step per call. -/
theorem createdFrom_length (c idx : ℕ) (l : List StepInput) :
    (createdFrom c idx l).length = l.length := by
  induction l generalizing idx with
  | nil => rfl
  | cons i rest ih => simp [createdFrom, ih]

/-- Appending one call to a sequence appends one created step. -/
theorem createdFrom_snoc (c idx : ℕ) (l : List StepInput) (x : StepInput) :
    createdFrom c idx (l ++ [x])
      = createdFrom c idx l ++ [mkStepAt c (idx + l.length) x] := by
  induction l generalizing idx with
  | nil => simp [createdFrom]
  | cons i rest ih =>
    simp only [List.cons_append, createdFrom, List.length_cons, List.append_eq]
    rw [ih]
    rw [show idx + 1 + rest.length = idx + (rest.length + 1) from by omega]

/-- `createdSteps` version of `createdFrom_snoc`. -/
theorem createdSteps_snoc (c : ℕ) (l : List StepInput) (x : StepInput) :
    createdSteps c (l ++ [x]) = createdSteps c l ++ [mkStepAt c l.length x] := by
  unfold createdSteps
  rw [createdFrom_snoc]
  simp

/-- `createdSteps` produces one step per call. -/
theorem createdSteps_length (c : ℕ) (l : List StepInput) :
    (createdSteps c l).length = l.length := createdFrom_length c 0 l

/-- Unfolding one trailing `add_step` call. -/
theorem runSteps_snoc (c : ℕ) (l : List StepInput) (x : StepInput) :
    runSteps c (l ++ [x]) = addStep (runSteps c l) x := by
  simp [runSteps, runFrom, List.foldl_append]

/-- Effect of one `add_step` call on the canonical reachable state: the
recent history is the suffix of the created steps past the evicted
prefix, and the archive is the summarized evicted prefix. -/
theorem addStep_canonical (c : ℕ) (hc : 0 < c) (D : List AnalysisStep)
    (k : ℕ) (hD : D.length = k) (x : StepInput) :
    addStep ⟨c, D.drop (k - c), (D.take (k - c)).map summarizeStep⟩ x
      = ⟨c, (D ++ [mkStepAt c k x]).drop (k + 1 - c),
            ((D ++ [mkStepAt c k x]).take (k + 1 - c)).map summarizeStep⟩ := by
  subst hD
  unfold addStep addStepFull
  dsimp only
  have hstepEq : (⟨(D.drop (D.length - c)).length + 1,
      x.action, x.description, x.insights, x.code⟩ : AnalysisStep)
      = mkStepAt c D.length x := by
    simp only [mkStepAt, AnalysisStep.mk.injEq, List.length_drop, and_true]
    omega
  rw [hstepEq]
  by_cases hkc : c ≤ D.length
  · rw [if_pos (by simp only [List.length_append, List.length_drop,
      List.length_cons, List.length_nil]; omega)]
    rw [← List.drop_append_of_le_length (by omega : D.length - c ≤ D.length)]
    have hl2 : D.length - c < (D ++ [mkStepAt c D.length x]).length := by
      simp
      omega
    rw [List.drop_eq_getElem_cons hl2]
    dsimp only [archiveOldSteps]
    have e1 : D.length - c + 1 = D.length + 1 - c := by omega
    have e2 : (D.take (D.length - c)).map summarizeStep
        = ((D ++ [mkStepAt c D.length x]).take (D.length - c)).map summarizeStep := by
      rw [List.take_append_of_le_length (by omega : D.length - c ≤ D.length)]
    have e3 : (D ++ [mkStepAt c D.length x]).take (D.length + 1 - c)
        = (D ++ [mkStepAt c D.length x]).take (D.length - c)
          ++ [(D ++ [mkStepAt c D.length x])[D.length - c]] := by
      rw [← e1, List.take_succ, List.getElem?_eq_getElem hl2]
      rfl
    rw [Ledger.mk.injEq]
    refine ⟨rfl, by rw [e1], ?_⟩
    rw [e3, List.map_append, ← e2]
    rfl
  · rw [if_neg (by simp only [List.length_append, List.length_drop,
      List.length_cons, List.length_nil]; omega)]
    have z1 : D.length - c = 0 := by omega
    have z2 : D.length + 1 - c = 0 := by omega
    rw [Ledger.mk.injEq]
    refine ⟨rfl, ?_, ?_⟩
    · rw [z1, z2, List.drop_zero, List.drop_zero]
    · rw [z1, z2, List.take_zero, List.take_zero]

/-- Canonical form of the state reached by any `add_step` sequence on a
fresh positive-capacity ledger: the recent history is the created steps
minus the evicted prefix, and the archive summarizes the evicted prefix
in insertion (FIFO) order. -/
theorem runSteps_struct (c : ℕ) (hc : 0 < c) (l : List StepInput) :
    runSteps c l
      = ⟨c, (createdSteps c l).drop (l.length - c),
            ((createdSteps c l).take (l.length - c)).map summarizeStep⟩ := by
  induction l using List.reverseRecOn with
  | nil => simp [runSteps, runFrom, initLedger, createdSteps, createdFrom]
  | append_singleton l x ih =>
    rw [runSteps_snoc, ih, createdSteps_snoc,
      addStep_canonical c hc (createdSteps c l) l.length (createdSteps_length c l) x]
    simp

/-- Dropping to the last three elements empties a list exactly when the
list is empty. -/
theorem lastN_isEmpty (l : List α) : (lastN 3 l).isEmpty = l.isEmpty := by
  cases l with
  | nil => rfl
  | cons a t =>
    have h1 : (lastN 3 (a :: t)).length = (a :: t).length - ((a :: t).length - 3) := by
      simp [lastN]
    have h2 : 0 < (lastN 3 (a :: t)).length := by
      rw [h1]
      simp only [List.length_cons]
      omega
    have h3 : ¬ (lastN 3 (a :: t)).isEmpty = true := by
      rw [List.isEmpty_iff_length_eq_zero]
      omega
    simp only [List.isEmpty_cons]
    exact Bool.eq_false_iff.mpr h3

/-- A `lastN` slice has at most `n` elements. -/
theorem lastN_length_le (n : ℕ) (l : List α) : (lastN n l).length ≤ n := by
  simp only [lastN, List.length_drop]
  omega

/-- Claim C1: for every sequence of `add_step` calls on a ledger with
positive capacity, after every call `len(recent_steps) ≤ capacity`
holds, `len(archived_summaries) = max(0, total_calls − capacity)`
(truncated subtraction), and the archived summaries are exactly the
evicted oldest steps, summarized in insertion (FIFO) order. -/
theorem c1_ledger_invariants (c : ℕ) (hc : 0 < c) (l : List StepInput) :
    (runSteps c l).history.length ≤ c
    ∧ (runSteps c l).archived.length = l.length - c
    ∧ (runSteps c l).history = (createdSteps c l).drop (l.length - c)
    ∧ (runSteps c l).archived
        = ((createdSteps c l).take (l.length - c)).map summarizeStep := by
  have h := runSteps_struct c hc l
  refine ⟨?_, ?_, by rw [h], by rw [h]⟩
  · rw [h]
    simp only [List.length_drop, createdSteps_length]
    omega
  · rw [h]
    simp only [List.length_map, List.length_take, createdSteps_length]
    omega

/-- Witness for C1: the invariants evaluated on a capacity-1 ledger
after three concrete calls. -/
theorem c1_ledger_invariants_witness :
    (runSteps 1 demoInputs3).history.length ≤ 1
    ∧ (runSteps 1 demoInputs3).archived.length = demoInputs3.length - 1
    ∧ (runSteps 1 demoInputs3).history
        = (createdSteps 1 demoInputs3).drop (demoInputs3.length - 1)
    ∧ (runSteps 1 demoInputs3).archived
        = ((createdSteps 1 demoInputs3).take (demoInputs3.length - 1)).map
            summarizeStep :=
  c1_ledger_invariants 1 (by decide) demoInputs3

/-- Claim C2 (code bug): with capacity 1, the second and third calls
both get `step_number = 2` — the code computes `len(self.history) + 1`
and ignores the archived count, so the spec's
`archived_count + len(recent_steps) + 1` (which is 3 at the third call)
is violated and the numbers are not strictly increasing. -/
theorem c2_step_number_not_increasing :
    capOneRun2.1.stepNumber = 2
    ∧ capOneRun3.1.stepNumber = 2
    ∧ capOneRun2.2.archived.length + capOneRun2.2.history.length + 1 = 3
    ∧ ¬ capOneRun2.1.stepNumber < capOneRun3.1.stepNumber := by
  refine ⟨rfl, rfl, rfl, by decide⟩

/-- Claim C6 (amended): `get_context_for_next_step` is exactly the
layered string built from the **total archived count** together with
the last at-most-3 archived summaries, the last at-most-3 recent steps
(rendered with their first insight), and the last at-most-3 pooled
insights — each of the three item groups is capped at 3. -/
theorem c6_context_layers (s : Ledger) :
    getContextForNextStep s
      = buildContext s.archived.length (lastN 3 s.archived) (lastN 3 s.history)
          (lastN 3 (extractKeyInsights s))
    ∧ (lastN 3 s.archived).length ≤ 3
    ∧ (lastN 3 s.history).length ≤ 3
    ∧ (lastN 3 (extractKeyInsights s)).length ≤ 3 := by
  refine ⟨?_, lastN_length_le 3 _, lastN_length_le 3 _, lastN_length_le 3 _⟩
  unfold getContextForNextStep buildContext
  rw [lastN_isEmpty, lastN_isEmpty, lastN_isEmpty]

/-- Counterexample for C6 as stated: two reachable states agreeing on
the last 3 archived summaries, the whole recent history (hence on the
last 3 rendered steps and last 3 pooled insights), yet producing
different context strings — the output also depends on the total
archived count. -/
theorem c6_counterexample :
    lastN 3 ctxA.archived = lastN 3 ctxB.archived
    ∧ ctxA.history = ctxB.history
    ∧ lastN 3 (extractKeyInsights ctxA) = lastN 3 (extractKeyInsights ctxB)
    ∧ getContextForNextStep ctxA ≠ getContextForNextStep ctxB := by
  refine ⟨by decide, by decide, by decide, by decide⟩

/-- Claim C9 (amended): across any sequence of `add_step` calls the
archive only grows — the previous archive is a prefix of the new one,
so every previously archived summary keeps its position; the separate
`clear_history` operation, however, resets both lists to empty. -/
theorem c9_archive_grows (s : Ledger) (l : List StepInput) :
    (∃ tl, (runFrom s l).archived = s.archived ++ tl)
    ∧ (clearHistory s).archived = [] ∧ (clearHistory s).history = [] :=
  ⟨runFrom_archived_extends s l, rfl, rfl⟩

/-- Counterexample for C9 as stated: `clear_history` is a mutation of
the ledger after which the archive has shrunk — the previously archived
summary is gone. -/
theorem c9_counterexample :
    (clearHistory demoLedger).archived.length < demoLedger.archived.length := by
  decide

/-! ## Schema compressor lemmas -/

/-- An element of `zip l (map f l)` pairs each element with its image. -/
theorem zip_map_self_snd {α γ : Type _} (L : List α) (f : α → γ) :
    ∀ q ∈ L.zip (L.map f), q.2 = f q.1 := by
  intro q h
  induction L with
  | nil => simp at h
  | cons a t ih =>
    simp only [List.map_cons, List.zip_cons_cons, List.mem_cons] at h
    rcases h with h | h
    · subst h
      rfl
    · exact ih h

/-- A column never has more nulls than entries. -/
theorem colMissing_le_colLen (v : ColValues) : colMissing v ≤ colLen v := by
  cases v <;> simp only [colMissing, colLen] <;> exact List.length_filter_le _ _

/-- Claim C7: `compress` is total on every table (it is a Lean function)
and well-behaved on degenerate input: it yields exactly one digest per
table column with the names in table order; a numeric column with zero
non-null values gets `stats = none` rather than an error; and the empty
table yields `row_count = 0` with an empty column map. -/
theorem c7_compress_degenerate (t : Table) :
    (compress t).columns.map Prod.fst = t.cols.map Prod.fst
    ∧ (compress t).columns.length = t.cols.length
    ∧ (∀ q ∈ t.cols.zip (compress t).columns, ∀ vals,
        q.1.2 = ColValues.numeric vals → somesQ vals = [] →
          kindStats q.2.2.kind = none)
    ∧ (t.nRows = 0 → t.cols = [] → (compress t).rows = 0 ∧ (compress t).columns = []) := by
  refine ⟨?_, ?_, ?_, ?_⟩
  · simp [compress]
  · simp [compress]
  · intro q hq vals hv hs
    have h2 : q.2 = (q.1.1, compressColumn q.1.2) :=
      zip_map_self_snd t.cols (fun p => (p.1, compressColumn p.2)) q hq
    rw [h2]
    dsimp only
    rw [hv]
    simp [compressColumn, kindStats, numericStats, hs]
  · intro h0 hcols
    simp [compress, hcols, h0]

/-- Witness for C7: the degenerate behaviors at a table with an all-null
numeric column, and at the empty table. -/
theorem c7_compress_degenerate_witness :
    (compress df7).columns.map Prod.fst = df7.cols.map Prod.fst
    ∧ kindStats (compressColumn (ColValues.numeric [none, none])).kind = none
    ∧ (compress df0).rows = 0 ∧ (compress df0).columns = [] :=
  ⟨(c7_compress_degenerate df7).1,
   (c7_compress_degenerate df7).2.2.1
     (("a", ColValues.numeric [none, none]),
      ("a", compressColumn (ColValues.numeric [none, none])))
     (by exact List.mem_cons_self _ _) [none, none] rfl (by decide),
   (c7_compress_degenerate df0).2.2.2 rfl rfl⟩

/-- Claim C8 (amended): on a well-formed table with at least one row,
every column digest has a well-defined `missing_ratio` in `[0, 1]`.
(The original claim also covered zero-row tables, where the ratio is
the float `0/0 = NaN`, modelled `none` — see the counterexample.) -/
theorem c8_missing_ratio_bounds (t : Table) (hwf : WellFormed t)
    (hr : 0 < t.nRows) :
    ∀ p ∈ (compress t).columns, ∃ q, p.2.missingRatio = some q ∧ 0 ≤ q ∧ q ≤ 1 := by
  intro p hp
  simp only [compress, List.mem_map] at hp
  obtain ⟨src, hsrc, rfl⟩ := hp
  have hlen : colLen src.2 = t.nRows := hwf.2 src hsrc
  have hpos : 0 < colLen src.2 := by omega
  refine ⟨(colMissing src.2 : ℚ) / (colLen src.2 : ℚ), ?_, ?_, ?_⟩
  · simp only [compressColumn]
    rw [if_neg (by omega)]
  · apply div_nonneg
    · exact_mod_cast Nat.zero_le _
    · exact_mod_cast Nat.zero_le _
  · rw [div_le_one (by exact_mod_cast hpos)]
    exact_mod_cast colMissing_le_colLen src.2

/-- Witness for C8: the bound evaluated at a concrete column of a
concrete non-empty well-formed table. -/
theorem c8_missing_ratio_bounds_witness :
    ∃ q, (compressColumn (ColValues.numeric [some 1, some 2, some 3])).missingRatio
          = some q ∧ 0 ≤ q ∧ q ≤ 1 :=
  c8_missing_ratio_bounds df2 (by decide) (by decide)
    ("x", compressColumn (ColValues.numeric [some 1, some 2, some 3]))
    (by exact List.mem_cons_self _ _)

/-- Counterexample for C8 as stated: a well-formed zero-row table with a
column, where the code's `missing_count / len(series)` is the float
`0/0 = NaN` (modelled `none`) — not a number in `[0, 1]`. -/
theorem c8_counterexample :
    WellFormed df8 ∧ df8.nRows = 0
    ∧ ((compress df8).columns.map fun p => p.2.missingRatio) = [none] := by
  refine ⟨by decide, rfl, by decide⟩

/-! ## Suggestion engine and analysis-step accounting -/

/-- Claim C5: `suggest_next_steps` returns exactly the three fixed
suggestions when `current_step = 0`, regardless of the digest; for any
positive step count it is the generated list truncated to its first 5
elements in generation order, hence has at most 5 entries. -/
theorem c5_suggestion_cap (fmt : NumFmt) (schema : SchemaDigest) (step : ℕ) :
    (step = 0 → suggestNextSteps fmt schema step
        = ["Examine basic statistics and data distribution",
           "Check for missing values and data quality issues",
           "Identify column types and potential features"])
    ∧ (0 < step → suggestNextSteps fmt schema step = (genSuggestions fmt schema).take 5
        ∧ (suggestNextSteps fmt schema step).length ≤ 5) := by
  constructor
  · intro h
    subst h
    rfl
  · intro h
    have hne : step ≠ 0 := by omega
    refine ⟨by simp [suggestNextSteps, hne], ?_⟩
    simp only [suggestNextSteps, if_neg hne, List.length_take]
    omega

/-- Witness for C5: both branches evaluated at a concrete digest. -/
theorem c5_suggestion_cap_witness :
    suggestNextSteps trivialFmt (compress df2) 0
      = ["Examine basic statistics and data distribution",
         "Check for missing values and data quality issues",
         "Identify column types and potential features"]
    ∧ suggestNextSteps trivialFmt (compress df2) 1
        = (genSuggestions trivialFmt (compress df2)).take 5 :=
  ⟨(c5_suggestion_cap trivialFmt (compress df2) 0).1 rfl,
   ((c5_suggestion_cap trivialFmt (compress df2) 1).2 (by decide)).1⟩

/-- Claim C3 (amended): `analyze_missing_values`, `analyze_distributions`
and `detect_outliers` always record exactly one `HistoryLedger` step and
increment `current_step` by exactly one; `analyze_correlations` does so
exactly when at least 2 numeric columns exist, and otherwise returns
early leaving the state entirely unchanged (so the two counters always
stay consistent, but the claim's "every call adds a step" fails on the
early return). -/
theorem c3_one_step_per_analysis (fmt : NumFmt) (df : Table)
    (_hwf : WellFormed df) (s : AgentState) (t : ℚ) (method : String) :
    (ledgerTotal (analyzeMissingValues df s).ledger = ledgerTotal s.ledger + 1
      ∧ (analyzeMissingValues df s).currentStep = s.currentStep + 1)
    ∧ (ledgerTotal (analyzeDistributions fmt df s).ledger = ledgerTotal s.ledger + 1
      ∧ (analyzeDistributions fmt df s).currentStep = s.currentStep + 1)
    ∧ (ledgerTotal (detectOutliers fmt method df s).ledger = ledgerTotal s.ledger + 1
      ∧ (detectOutliers fmt method df s).currentStep = s.currentStep + 1)
    ∧ (2 ≤ (numericCols df).length →
        ledgerTotal (analyzeCorrelations fmt t df s).ledger = ledgerTotal s.ledger + 1
        ∧ (analyzeCorrelations fmt t df s).currentStep = s.currentStep + 1)
    ∧ ((numericCols df).length < 2 → analyzeCorrelations fmt t df s = s) := by
  refine ⟨⟨ledgerTotal_addStep _ _, rfl⟩, ⟨ledgerTotal_addStep _ _, rfl⟩,
    ⟨ledgerTotal_addStep _ _, rfl⟩, ?_, ?_⟩
  · intro h
    unfold analyzeCorrelations
    dsimp only
    rw [if_neg (by omega)]
    exact ⟨ledgerTotal_addStep _ _, rfl⟩
  · intro h
    unfold analyzeCorrelations
    dsimp only
    rw [if_pos h]

/-- Witness for C3: the step accounting evaluated on a concrete
well-formed two-numeric-column table. -/
theorem c3_one_step_per_analysis_witness :
    (ledgerTotal (analyzeMissingValues df2 initAgent).ledger
        = ledgerTotal initAgent.ledger + 1
      ∧ (analyzeMissingValues df2 initAgent).currentStep = initAgent.currentStep + 1)
    ∧ (ledgerTotal (analyzeDistributions trivialFmt df2 initAgent).ledger
        = ledgerTotal initAgent.ledger + 1
      ∧ (analyzeDistributions trivialFmt df2 initAgent).currentStep
        = initAgent.currentStep + 1)
    ∧ (ledgerTotal (detectOutliers trivialFmt "iqr" df2 initAgent).ledger
        = ledgerTotal initAgent.ledger + 1
      ∧ (detectOutliers trivialFmt "iqr" df2 initAgent).currentStep
        = initAgent.currentStep + 1)
    ∧ (ledgerTotal (analyzeCorrelations trivialFmt (7/10) df2 initAgent).ledger
        = ledgerTotal initAgent.ledger + 1
      ∧ (analyzeCorrelations trivialFmt (7/10) df2 initAgent).currentStep
        = initAgent.currentStep + 1) := by
  have h := c3_one_step_per_analysis trivialFmt df2 (by decide) initAgent (7/10) "iqr"
  exact ⟨h.1, h.2.1, h.2.2.1, h.2.2.2.1 (by decide)⟩

/-- Counterexample for C3 as stated: on a table with a single numeric
column, `analyze_correlations` returns early — no step is added and
`current_step` stays at 0 instead of becoming 1. -/
theorem c3_counterexample :
    analyzeCorrelations trivialFmt (7/10) df1 initAgent = initAgent
    ∧ ledgerTotal (analyzeCorrelations trivialFmt (7/10) df1 initAgent).ledger = 0
    ∧ (analyzeCorrelations trivialFmt (7/10) df1 initAgent).currentStep = 0 :=
  ⟨rfl, rfl, rfl⟩

/-- Claim C10: `detect_outliers` never validates its `method` argument:
any string other than exactly `"iqr"` silently selects the z-score
branch, and the whole per-column outlier computation coincides with the
`"zscore"` one (no error value, no exception — the function is total). -/
theorem c10_method_fallthrough (fmt : NumFmt) (df : Table) (method : String)
    (h : method ≠ "iqr") :
    (∀ nn : List ℚ, outlierMask method nn = zscoreMask nn)
    ∧ detectOutliersCore fmt df method = detectOutliersCore fmt df "zscore" := by
  have hmask : ∀ nn : List ℚ, outlierMask method nn = zscoreMask nn := by
    intro nn
    unfold outlierMask
    rw [if_neg h]
  refine ⟨hmask, ?_⟩
  have h2 : outlierMask method = outlierMask "zscore" := by
    funext nn
    rw [hmask nn]
    unfold outlierMask
    rw [if_neg (by decide)]
  unfold detectOutliersCore
  rw [h2]

/-- Witness for C10: the misspelled method `"IQR"` behaves exactly like
`"zscore"` on a concrete column and table. -/
theorem c10_method_fallthrough_witness :
    "IQR" ≠ "iqr"
    ∧ outlierMask "IQR" cexIqr = zscoreMask cexIqr
    ∧ detectOutliersCore trivialFmt df2 "IQR"
        = detectOutliersCore trivialFmt df2 "zscore" :=
  ⟨by decide,
   (c10_method_fallthrough trivialFmt df2 "IQR" (by decide)).1 cexIqr,
   (c10_method_fallthrough trivialFmt df2 "IQR" (by decide)).2⟩

/-! ## Z-score bridge lemmas -/

/-- Evaluation rule for `quantileLinear` once the sorted list, the
interpolation position and its floor are known. -/
theorem quantileLinear_eq (l : List ℚ) (q : ℚ) (s : List ℚ) (hs : sortQ l = s)
    (hQ : ℚ) (hh : q * ((s.length : ℚ) - 1) = hQ) (i : ℕ)
    (hi : (⌊hQ⌋).toNat = i) :
    quantileLinear l q
      = s.getD i 0 + (hQ - (i : ℚ)) * (s.getD (i + 1) (s.getD i 0) - s.getD i 0) := by
  unfold quantileLinear
  dsimp only
  rw [hs, hh, hi]

/-- `getD` of a mapped list below its length. -/
theorem getD_map_of_lt {α β : Type _} (l : List α) (f : α → β) (i : ℕ)
    (d : β) (d0 : α) (h : i < l.length) :
    (l.map f).getD i d = f (l.getD i d0) := by
  rw [List.getD_eq_getElem?_getD, List.getD_eq_getElem?_getD,
    List.getElem?_map, List.getElem?_eq_getElem h]
  rfl

/-- The sum of squared deviations is nonnegative. -/
theorem ssqQ_nonneg (l : List ℚ) : 0 ≤ ssqQ l := by
  apply List.sum_nonneg
  intro y hy
  simp only [ssqQ, List.mem_map] at hy
  obtain ⟨z, _, rfl⟩ := hy
  positivity

/-- Each squared deviation is at most the total. -/
theorem sq_le_ssqQ (l : List ℚ) (x : ℚ) (hx : x ∈ l) :
    (x - meanQ l) ^ 2 ≤ ssqQ l := by
  apply List.single_le_sum
  · intro y hy
    simp only [List.mem_map] at hy
    obtain ⟨z, _, rfl⟩ := hy
    positivity
  · exact List.mem_map_of_mem _ hx

/-- A list with at most one element has zero squared-deviation sum. -/
theorem ssqQ_eq_zero_of_short (nn : List ℚ) (h : nn.length ≤ 1) : ssqQ nn = 0 := by
  cases nn with
  | nil => rfl
  | cons a t =>
    cases t with
    | nil => norm_num [ssqQ, meanQ]
    | cons b u => simp at h

/-- Positive squared-deviation sum forces at least two elements. -/
theorem two_le_length_of_ssq_pos (nn : List ℚ) (h : 0 < ssqQ nn) :
    2 ≤ nn.length := by
  by_contra hc
  push_neg at hc
  rw [ssqQ_eq_zero_of_short nn (by omega)] at h
  exact lt_irrefl 0 h

/-- Core square-root elimination: for positive `S` and denominator,
`3 < |d| / √(S/m1)  ↔  9·S < d²·m1`. -/
theorem zscore_ratio_iff (S d m1 : ℝ) (hS : 0 < S) (hm : 0 < m1) :
    3 < |d| / Real.sqrt (S / m1) ↔ 9 * S < d ^ 2 * m1 := by
  have hs2 : 0 < S / m1 := div_pos hS hm
  have hsq : 0 < Real.sqrt (S / m1) := Real.sqrt_pos.mpr hs2
  rw [lt_div_iff₀ hsq]
  have ha : 0 ≤ 3 * Real.sqrt (S / m1) := by positivity
  have hb : 0 ≤ |d| := abs_nonneg d
  rw [← pow_lt_pow_iff_left₀ ha hb (by norm_num : 2 ≠ 0)]
  rw [mul_pow, sq_abs, Real.sq_sqrt (le_of_lt hs2)]
  rw [show (3 : ℝ) ^ 2 = 9 by norm_num, ← mul_div_assoc]
  rw [div_lt_iff₀ hm]

/-- The z-score comparison with the ddof=1 sample standard deviation,
reduced to the exact rational inequality used in `zscoreMask`.  The
degenerate cases (`SS = 0`: zero or `NaN` standard deviation) are
false on both sides. -/
theorem zscoreSample_iff_rat (nn : List ℚ) (x : ℚ) (hx : x ∈ nn) :
    specZscoreSample nn x
      ↔ 9 * ssqQ nn < (x - meanQ nn) ^ 2 * ((nn.length : ℚ) - 1) := by
  unfold specZscoreSample
  rcases lt_or_eq_of_le (ssqQ_nonneg nn) with hss | hss
  · have hm2 : 2 ≤ nn.length := two_le_length_of_ssq_pos nn hss
    have h1 : (0 : ℝ) < (ssqQ nn : ℝ) := by exact_mod_cast hss
    have h2 : (0 : ℝ) < (nn.length : ℝ) - 1 := by
      have : (2 : ℝ) ≤ (nn.length : ℝ) := by exact_mod_cast hm2
      linarith
    rw [zscore_ratio_iff _ _ _ h1 h2]
    constructor
    · intro h
      exact_mod_cast h
    · intro h
      exact_mod_cast h
  · have hd : x - meanQ nn = 0 := by
      have h1 : (x - meanQ nn) ^ 2 ≤ ssqQ nn := sq_le_ssqQ nn x hx
      have h2 : (x - meanQ nn) ^ 2 ≤ 0 := by rw [← hss] at h1; exact h1
      have h3 : (x - meanQ nn) ^ 2 = 0 := le_antisymm h2 (sq_nonneg _)
      exact (pow_eq_zero_iff (by norm_num : 2 ≠ 0)).mp h3
    constructor
    · intro h
      exfalso
      rw [show (x : ℝ) - (meanQ nn : ℝ) = 0 by exact_mod_cast hd] at h
      norm_num at h
    · intro h
      exfalso
      rw [hd, ← hss] at h
      norm_num at h

/-- The z-score comparison with the population standard deviation (what
claim C4 demands), reduced to the exact rational inequality. -/
theorem zscorePop_iff_rat (nn : List ℚ) (x : ℚ) (hx : x ∈ nn) :
    specZscorePop nn x
      ↔ 9 * ssqQ nn < (x - meanQ nn) ^ 2 * (nn.length : ℚ) := by
  unfold specZscorePop
  rcases lt_or_eq_of_le (ssqQ_nonneg nn) with hss | hss
  · have h1 : (0 : ℝ) < (ssqQ nn : ℝ) := by exact_mod_cast hss
    have h2 : (0 : ℝ) < (nn.length : ℝ) := by
      have := List.length_pos.mpr (List.ne_nil_of_mem hx)
      exact_mod_cast this
    rw [zscore_ratio_iff _ _ _ h1 h2]
    constructor
    · intro h
      exact_mod_cast h
    · intro h
      exact_mod_cast h
  · have hd : x - meanQ nn = 0 := by
      have h1 : (x - meanQ nn) ^ 2 ≤ ssqQ nn := sq_le_ssqQ nn x hx
      have h2 : (x - meanQ nn) ^ 2 ≤ 0 := by rw [← hss] at h1; exact h1
      have h3 : (x - meanQ nn) ^ 2 = 0 := le_antisymm h2 (sq_nonneg _)
      exact (pow_eq_zero_iff (by norm_num : 2 ≠ 0)).mp h3
    constructor
    · intro h
      exfalso
      rw [show (x : ℝ) - (meanQ nn : ℝ) = 0 by exact_mod_cast hd] at h
      norm_num at h
    · intro h
      exfalso
      rw [hd, ← hss] at h
      norm_num at h

/-- Claim C4 (amended): on the non-null values of a numeric column, the
`iqr` method flags exactly the values strictly outside
`[Q1 − 1.5·IQR, Q3 + 1.5·IQR]`, and the `zscore` method flags exactly
the values with `|z| > 3` where `z` uses the mean and the **ddof=1
sample** standard deviation (pandas `Series.std()`), not the population
standard deviation the claim names. -/
theorem c4_outlier_masks (nn : List ℚ) (i : ℕ) (h : i < nn.length) :
    ((outlierMask "iqr" nn).getD i false = true
      ↔ (nn.getD i 0 < quantileLinear nn (1/4)
            - 3/2 * (quantileLinear nn (3/4) - quantileLinear nn (1/4))
          ∨ quantileLinear nn (3/4)
            + 3/2 * (quantileLinear nn (3/4) - quantileLinear nn (1/4))
            < nn.getD i 0))
    ∧ ((outlierMask "zscore" nn).getD i false = true
      ↔ specZscoreSample nn (nn.getD i 0)) := by
  have hx : nn.getD i 0 ∈ nn := by
    rw [List.getD_eq_getElem?_getD, List.getElem?_eq_getElem h]
    exact List.getElem_mem h
  constructor
  · have hm : outlierMask "iqr" nn = iqrMask nn := by
      unfold outlierMask
      rw [if_pos rfl]
    rw [hm]
    unfold iqrMask
    dsimp only
    rw [getD_map_of_lt nn _ i false 0 h]
    simp only [decide_eq_true_eq]
  · have hm : outlierMask "zscore" nn = zscoreMask nn := by
      unfold outlierMask
      rw [if_neg (by decide)]
    rw [hm]
    unfold zscoreMask
    dsimp only
    rw [getD_map_of_lt nn _ i false 0 h]
    simp only [decide_eq_true_eq]
    exact (zscoreSample_iff_rat nn _ hx).symm

/-- Witness for C4: on the spec's own example column `[1,2,3,4,5,100]`
the `iqr` method flags the value 100 (bounds `[-1.5, 8.5]`), and the
z-score characterization instantiates there as well. -/
theorem c4_outlier_masks_witness :
    (outlierMask "iqr" cexIqr).getD 5 false = true
    ∧ ((outlierMask "zscore" cexIqr).getD 5 false = true
        ↔ specZscoreSample cexIqr (cexIqr.getD 5 0)) := by
  have hq1 : quantileLinear cexIqr (1/4) = 9/4 := by
    rw [quantileLinear_eq cexIqr (1/4) [1, 2, 3, 4, 5, 100]
      (by norm_num [sortQ, cexIqr, List.insertionSort, List.orderedInsert])
      (5/4) (by norm_num) 1
      (by rw [show ⌊(5 : ℚ)/4⌋ = 1 by norm_num]; decide)]
    norm_num [List.getD_cons_zero, List.getD_cons_succ]
  have hq3 : quantileLinear cexIqr (3/4) = 19/4 := by
    rw [quantileLinear_eq cexIqr (3/4) [1, 2, 3, 4, 5, 100]
      (by norm_num [sortQ, cexIqr, List.insertionSort, List.orderedInsert])
      (15/4) (by norm_num) 3
      (by rw [show ⌊(15 : ℚ)/4⌋ = 3 by norm_num]; decide)]
    norm_num [List.getD_cons_zero, List.getD_cons_succ]
  refine ⟨(c4_outlier_masks cexIqr 5 (by decide)).1.mpr ?_,
    (c4_outlier_masks cexIqr 5 (by decide)).2⟩
  rw [hq1, hq3, show cexIqr.getD 5 0 = (100 : ℚ) from rfl]
  norm_num

/-- Counterexample for C4 as stated: on the column
`[9,-4,-1,-1,-1,-1,-1,0,0,0,0,0]` the value 9 has `|z| > 3` under the
population standard deviation (`z² = 81·12/102 > 9`), yet the code's
`zscore` method (sample standard deviation) does not flag it. -/
theorem c4_counterexample :
    cexData.getD 0 0 = 9
    ∧ specZscorePop cexData (cexData.getD 0 0)
    ∧ (outlierMask "zscore" cexData).getD 0 false = false := by
  have hmu : meanQ cexData = 0 := by norm_num [meanQ, cexData]
  have hmu2 : meanQ [9, -4, -1, -1, -1, -1, -1, 0, 0, 0, 0, 0] = (0 : ℚ) := hmu
  have hss : ssqQ cexData = 102 := by norm_num [ssqQ, cexData, hmu2]
  refine ⟨rfl, ?_, ?_⟩
  · refine (zscorePop_iff_rat cexData (cexData.getD 0 0)
      (by exact List.mem_cons_self _ _)).mpr ?_
    rw [hss, hmu, show cexData.getD 0 0 = (9 : ℚ) from rfl,
      show cexData.length = 12 from rfl]
    norm_num
  · have hm : outlierMask "zscore" cexData = zscoreMask cexData := by
      unfold outlierMask
      rw [if_neg (by decide)]
    rw [hm]
    unfold zscoreMask
    dsimp only
    rw [getD_map_of_lt cexData _ 0 false 0 (by decide)]
    rw [decide_eq_false_iff_not]
    rw [hss, hmu, show cexData.getD 0 0 = (9 : ℚ) from rfl,
      show cexData.length = 12 from rfl]
    norm_num
